import Mathlib

/-!
Verification of the xterm local-skeleton controller.

The development shallowly embeds the two source components:

* `HistoryController` (history store): entry list, browse cursor and
  scratch ("temporaries") array, with `rewind`, `getPrevious` and `getNext`.
* `TerminalController` (input controller): line buffer and cursor,
  pending-input queue, phase flag, with `onChar`, `onEscape`, `pushInput`
  and `startInputPhase`.

JavaScript strings are sequences of UTF-16 code units; string indices,
`substring`, `length` and per-code-point iteration all work at the code-unit
level.  We therefore model a JS string as a list of code units (`JStr`).
Array indexing with possibly negative indices (which yields `undefined` in
JS) is modelled by `idx?` over `Int` indices.
-/

namespace XtermLocal

/-- A JavaScript string: a finite sequence of UTF-16 code units. -/
abbrev JStr := List Nat

/-- JavaScript array/string indexing `l[i]`: `undefined` (`none`) for a
negative or out-of-range index. -/
def idx? {α : Type} (l : List α) (i : Int) : Option α :=
  if 0 ≤ i then l.get? i.toNat else none

/-- JavaScript array element assignment `l[i] = v` for an index that is in
range (the only use sites keep the index within the array, see
`getPrevious`/`getNext` below). -/
def setIdx (l : List (Option JStr)) (i : Int) (v : JStr) : List (Option JStr) :=
  if 0 ≤ i then l.set i.toNat (some v) else l

/-- Reading `temporaries[i]`: both an out-of-range index and a slot that
holds `undefined` read as `undefined`, which is what the `??` fallback in
the source tests for. -/
def tempAt (l : List (Option JStr)) (i : Int) : Option JStr :=
  (idx? l i).bind id

/-- The code units classified as whitespace by `String.prototype.trim`
(ECMA-262 WhiteSpace and LineTerminator). -/
def jsWhitespace (u : Nat) : Bool :=
  (0x09 ≤ u && u ≤ 0x0D) || u == 0x20 || u == 0xA0 || u == 0x1680 ||
  (0x2000 ≤ u && u ≤ 0x200A) || u == 0x2028 || u == 0x2029 ||
  u == 0x202F || u == 0x205F || u == 0x3000 || u == 0xFEFF

/-- JavaScript `String.prototype.trim`: strip leading and trailing whitespace. -/
def jsTrim (s : JStr) : JStr :=
  ((s.dropWhile jsWhitespace).reverse.dropWhile jsWhitespace).reverse

/-- State of a `HistoryController` instance (src/unnamed/part_000).
`cursor` is an `Int` because the source reads `entries[cursor - 1]` and
`temporaries[cursor - 1]`, where index `-1` must read as `undefined`. -/
structure HistoryState where
  size : Nat
  persistent : Option JStr
  entries : List JStr
  temporaries : List (Option JStr)
  cursor : Int
deriving DecidableEq

/-- The `resetCursor` method: `this.cursor = this.entries.length;
this.temporaries = [...this.entries.map(() => undefined), undefined]`. -/
def resetCursor (s : HistoryState) : HistoryState :=
  { s with
    cursor := (s.entries.length : Int)
    temporaries := s.entries.map (fun _ => none) ++ [none] }

/-- The `rewind(newEntry?)` method.  The external storage write (`localStorage.setItem`)
can fail (e.g. quota exceeded); its outcome is the explicit oracle
`writeOk`.  The source does not guard the write, so a failing write throws
out of `rewind` after the in-memory `push`/`splice` but before
`resetCursor`; this is returned as `Except.error` carrying the state the
object is left in. -/
def rewind (s : HistoryState) (newEntry : Option JStr) (writeOk : Bool) :
    Except HistoryState HistoryState :=
  match newEntry with
  | some e =>
    if jsTrim e = [] ∨ idx? s.entries ((s.entries.length : Int) - 1) = some e then
      -- blank, or equal to `this.entries[this.entries.length - 1]`: no append
      .ok (resetCursor s)
    else
      let pushed := s.entries ++ [e]
      let truncated :=
        if pushed.length > s.size then pushed.drop (pushed.length - s.size)
        else pushed
      let s1 := { s with entries := truncated }
      if s.persistent.isSome && !writeOk then .error s1
      else .ok (resetCursor s1)
  | none => .ok (resetCursor s)

/-- Running `rewind` in an execution where the storage write succeeds (or no
persistence is configured): this never throws. -/
def rewindOk (s : HistoryState) (newEntry : Option JStr) : HistoryState :=
  match rewind s newEntry true with
  | .ok s1 => s1
  | .error s1 => s1

/-- The `getPrevious(current)` method: save `current` as the scratch edit at the
present browse position, read scratch-or-entry one position up, decrement
the cursor if above 0, and return what was read. -/
def getPrevious (s : HistoryState) (current : JStr) : Option JStr × HistoryState :=
  let temps := setIdx s.temporaries s.cursor current
  let entry := tempAt temps (s.cursor - 1) <|> idx? s.entries (s.cursor - 1)
  (entry,
   { s with
     temporaries := temps
     cursor := if s.cursor > 0 then s.cursor - 1 else s.cursor })

/-- The `getNext(current)` method: symmetric to `getPrevious`, moving toward the live
slot at `entries.length`. -/
def getNext (s : HistoryState) (current : JStr) : Option JStr × HistoryState :=
  let temps := setIdx s.temporaries s.cursor current
  let entry := tempAt temps (s.cursor + 1) <|> idx? s.entries (s.cursor + 1)
  (entry,
   { s with
     temporaries := temps
     cursor := if s.cursor < (s.entries.length : Int) then s.cursor + 1 else s.cursor })

/-- A freshly constructed store with no persistence configured: empty
entries, then `resetCursor`. -/
def freshHistory (size : Nat) : HistoryState :=
  { size := size, persistent := none, entries := [], temporaries := [none], cursor := 0 }

/-! ### The dynamically-typed constructor (for the persistence claim)

`JSON.parse` is untyped: `this.entries = JSON.parse(...)` stores whatever
value the parse produced, array or not.  `Json` models the possible parse
results and `DynHistoryState` the entries field before any typing
assumption.  The outcome of `JSON.parse(window.localStorage.getItem(key)
?? "")` — a JS builtin plus the external storage read, both outside this
repository — is passed in as the oracle `loaded`; `Except.error` is a
thrown `SyntaxError` (including the guaranteed throw on `""` when the key
is absent) or a throwing storage read. -/

/-- A JavaScript JSON value as produced by `JSON.parse`. -/
inductive Json
  | null
  | bool (b : Bool)
  | num (n : Int)
  | str (s : JStr)
  | arr (elems : List Json)
  | obj (fields : List (JStr × Json))

/-- The history state as the constructor actually leaves it: `entries`
holds raw parse output. -/
structure DynHistoryState where
  size : Nat
  persistent : Option JStr
  entries : List Json
  temporaries : List (Option JStr)
  cursor : Int

/-- The `HistoryController` constructor.  `this.entries = []`, then, if a
storage key is configured, `try { this.entries = JSON.parse(...) } catch {}`,
then `resetCursor()`.  `resetCursor` evaluates `this.entries.map(...)`:
only arrays have a `.map` method, so any non-array parse result makes the
constructor throw a `TypeError` (returned as `Except.error`), outside the
`try` block. -/
def construct (size : Nat) (persistent : Option JStr) (loaded : Except Unit Json) :
    Except Unit DynHistoryState :=
  let entries : Json :=
    match persistent with
    | none => .arr []
    | some _ =>
      match loaded with
      | .ok j => j
      | .error _ => .arr []
  match entries with
  | .arr xs =>
    .ok { size := size, persistent := persistent, entries := xs,
          temporaries := xs.map (fun _ => none) ++ [none],
          cursor := (xs.length : Int) }
  | _ => .error ()

/-! ## The input controller (src/src/terminalController.ts)

The controller's observable actions are traced as `Event`s:
`completedLine l` is a render of `l` as a finalized, non-editable line
(`renderInput(_, true, _)`), `run l` is the hand-off of `l` to the
application handler (`this.run(l)`), and `livePrompt` is the render of a
fresh editable prompt (`renderInput(true, false)`).  Storage writes are
taken as succeeding here (`rewindOk`); their failure mode is the subject
of the history-level `rewind`. -/

/-- One controller action, in program order. -/
inductive Event
  | completedLine (line : JStr)
  | run (line : JStr)
  | livePrompt
deriving DecidableEq

/-- An entry of the pending-input queue (`InputBufferEntry`). -/
structure PendEntry where
  input : JStr
  execute : Bool
deriving DecidableEq

/-- State of a `TerminalController`: the history store, the phase flag,
the line buffer `input` with its code-unit `cursor`, and the
pending-input queue. -/
structure CState where
  history : HistoryState
  inputPhase : Bool
  input : JStr
  inputBuffer : List PendEntry
  cursor : Nat
deriving DecidableEq

/-- The `while` loop of `startInputPhase`: shift entries off the queue,
rendering each as a completed line; at the first entry marked `execute`,
run it and stop.  Returns the events, the line handed to `run` (if any)
and the queue that remains. -/
def drainLoop : List PendEntry → List Event × Option JStr × List PendEntry
  | [] => ([], none, [])
  | e :: rest =>
    if e.execute then
      ([.completedLine e.input, .run e.input], some e.input, rest)
    else
      let (evs, r, rem) := drainLoop rest
      (.completedLine e.input :: evs, r, rem)

/-- The `startInputPhase()` method: guarded on not already being live; drain the
pending-input queue; if the drain stopped at an `execute` entry, return
with the phase still not live (the handler now owns the turn), otherwise
mark the phase live and render the editable prompt. -/
def startInputPhase (st : CState) : CState × List Event :=
  if st.inputPhase then (st, [])
  else
    let (evs, ranLine, rem) := drainLoop st.inputBuffer
    match ranLine with
    | some _ => ({ st with inputBuffer := rem }, evs)
    | none => ({ st with inputBuffer := rem, inputPhase := true }, evs ++ [.livePrompt])

/-- The `pushInput(execute)` method: rewind the history (with the line text iff this
is an execute acceptance); in the live phase, leave it, finalize the
captured line and either run the handler on it or re-enter the input
phase; otherwise append the line to the pending-input queue.  The line
buffer and cursor are reset on every path. -/
def pushInput (st : CState) (execute : Bool) : CState × List Event :=
  let hist :=
    if execute then rewindOk st.history (some st.input)
    else rewindOk st.history none
  if st.inputPhase then
    let captured := st.input
    let st1 : CState :=
      { st with history := hist, inputPhase := false, input := [], cursor := 0 }
    if execute then
      (st1, [.completedLine captured, .run captured])
    else
      let (st2, evs) := startInputPhase st1
      (st2, .completedLine captured :: evs)
  else
    ({ st with history := hist, input := [], cursor := 0,
               inputBuffer := st.inputBuffer ++ [⟨st.input, execute⟩] }, [])

/-- The `onChar(char)` handler for one logical character (one code point, hence one or
two code units, as produced by `for...of`).  `char.charCodeAt(0)` of the
empty string is `NaN`, which fails both the `< 32` and the `=== 0x7f`
test; the sentinel `0x110000` exceeds every UTF-16 code unit and
reproduces that.  Returns the `inputPushed` flag, the new state and the
events. -/
def onChar (st : CState) (char : JStr) : Bool × CState × List Event :=
  let ord := char.headD 0x110000
  if ord < 32 || ord == 0x7f then
    if char = [0x0D] then        -- "\r": Enter
      let (st1, evs) := pushInput st true
      (true, st1, evs)
    else if char = [0x7F] then   -- Backspace
      if st.cursor > 0 then
        (false,
         { st with
           input := st.input.take (st.cursor - 1) ++ st.input.drop st.cursor,
           cursor := st.cursor - 1 }, [])
      else (false, st, [])
    else if char = [0x03] then   -- Ctrl+C: this.input += "^C"; pushInput(false)
      let (st1, evs) := pushInput { st with input := st.input ++ [0x5E, 0x43] } false
      (true, st1, evs)
    else (false, st, [])         -- other control characters: ignored
  else
    (false,
     { st with
       input := st.input.take st.cursor ++ char ++ st.input.drop st.cursor,
       cursor := st.cursor + char.length }, [])

/-- The `onEscape(sequence)` handler for the escape-prefixed input chunks.  The
sequences are the code units of "[A", "[B", "[D", "[C" and "[3~"; an
unrecognized sequence is logged and ignored.  Every branch returns
`false` for `inputPushed`. -/
def onEscape (st : CState) (seq : JStr) : Bool × CState :=
  if seq = [0x5B, 0x41] then        -- "[A": Up arrow
    let (previous, h) := getPrevious st.history st.input
    match previous with
    | some v => (false, { st with history := h, input := v, cursor := v.length })
    | none => (false, { st with history := h })
  else if seq = [0x5B, 0x42] then   -- "[B": Down arrow
    let (next, h) := getNext st.history st.input
    match next with
    | some v => (false, { st with history := h, input := v, cursor := v.length })
    | none => (false, { st with history := h })
  else if seq = [0x5B, 0x44] then   -- "[D": Left arrow
    (false, if st.cursor > 0 then { st with cursor := st.cursor - 1 } else st)
  else if seq = [0x5B, 0x43] then   -- "[C": Right arrow
    (false, if st.cursor < st.input.length then { st with cursor := st.cursor + 1 } else st)
  else if seq = [0x5B, 0x33, 0x7E] then  -- "[3~": Delete
    (false,
     if st.cursor < st.input.length then
       { st with input := st.input.take st.cursor ++ st.input.drop (st.cursor + 1) }
     else st)
  else (false, st)

/-- One editing operation as delivered by `onData`: a non-escape logical
character, or an escape sequence. -/
inductive EditOp
  | char (c : JStr)
  | escape (seq : JStr)

/-- Apply one editing operation to the controller state. -/
def applyOp (st : CState) (op : EditOp) : CState :=
  match op with
  | .char c => (onChar st c).2.1
  | .escape seq => (onEscape st seq).2

/-- Apply a sequence of editing operations in order. -/
def applyOps (st : CState) (ops : List EditOp) : CState :=
  ops.foldl applyOp st

/-! ## Auxiliary definitions for the claims -/

/-- The last `n` elements of a list (what `splice(0, length - n)` keeps). -/
def takeLast {α : Type} (n : Nat) (l : List α) : List α :=
  l.drop (l.length - n)

/-- Reference acceptance rule, following the spec's words: an entry is
accepted when present, non-blank and different from the previously
accepted entry; the result is the full list of accepted entries in
acceptance order, with no capacity applied.  `last` is the previously
accepted entry. -/
def acceptedFrom (last : Option JStr) : List (Option JStr) → List JStr
  | [] => []
  | none :: ops => acceptedFrom last ops
  | some e :: ops =>
    if jsTrim e = [] ∨ last = some e then acceptedFrom last ops
    else e :: acceptedFrom (some e) ops

/-- All entries accepted from a sequence of `rewind` arguments, per the
spec's acceptance rule, starting from an empty history. -/
def acceptedEntries (ops : List (Option JStr)) : List JStr :=
  acceptedFrom none ops

/-- Run a sequence of `rewind` calls (with succeeding storage writes). -/
def runRewinds (s : HistoryState) (ops : List (Option JStr)) : HistoryState :=
  ops.foldl rewindOk s

/-- The state component of an Up-arrow press (history-previous recall). -/
def arrowUp (st : CState) : CState := (onEscape st [0x5B, 0x41]).2

/-- The state component of a Down-arrow press (history-next recall). -/
def arrowDown (st : CState) : CState := (onEscape st [0x5B, 0x42]).2

/-- The action of `getPrevious` on the pair (history state, line buffer),
as `onEscape "[A"` uses it: the line buffer is replaced only when the
returned entry is defined. -/
def upStep (p : HistoryState × JStr) : HistoryState × JStr :=
  ((getPrevious p.1 p.2).2, ((getPrevious p.1 p.2).1).getD p.2)

/-- The action of `getNext` on the pair (history state, line buffer). -/
def downStep (p : HistoryState × JStr) : HistoryState × JStr :=
  ((getNext p.1 p.2).2, ((getNext p.1 p.2).1).getD p.2)

/-- Equivalence of browsing states: equal entries, browse cursor,
scratch-array length and line buffer, with the scratch arrays agreeing at
every position strictly above the cursor (positions at or below the
cursor are overwritten before they are ever read again on the way back
down). -/
def BEquiv (p q : HistoryState × JStr) : Prop :=
  p.1.entries = q.1.entries ∧
  p.1.cursor = q.1.cursor ∧
  p.1.temporaries.length = q.1.temporaries.length ∧
  (∀ i : Int, p.1.cursor < i → idx? p.1.temporaries i = idx? q.1.temporaries i) ∧
  p.2 = q.2

/-- A controller at a freshly rendered empty prompt. -/
def emptyLive : CState :=
  { history := freshHistory 100, inputPhase := true, input := [], inputBuffer := [], cursor := 0 }

/-- A live controller holding the partial input "foo" (units 0x66 0x6F 0x6F). -/
def fooLive : CState :=
  { history := freshHistory 100, inputPhase := true,
    input := [0x66, 0x6F, 0x6F], inputBuffer := [], cursor := 3 }

/-- A live controller at a blank prompt whose history holds "a" and "b",
with the browse cursor at the live position and no scratch edits. -/
def browseC : CState :=
  { history := { size := 100, persistent := none, entries := [[0x61], [0x62]],
                 temporaries := [none, none, none], cursor := 2 },
    inputPhase := true, input := [], inputBuffer := [], cursor := 0 }

/-- A controller that is not in the live phase, with lines "a" (complete
only), "b" (execute) and "c" (complete only) queued in completion order. -/
def queuedC : CState :=
  { history := freshHistory 100, inputPhase := false, input := [],
    inputBuffer := [⟨[0x61], false⟩, ⟨[0x62], true⟩, ⟨[0x63], false⟩], cursor := 0 }

/-! ## Helper lemmas -/

theorem idx?_last {α : Type} (l : List α) : idx? l ((l.length : Int) - 1) = l.getLast? := by
  cases l with
  | nil => rfl
  | cons a t =>
    have h1 : ((a :: t).length : Int) - 1 = (t.length : Int) := by
      simp [List.length_cons]
    rw [idx?, h1, if_pos (Int.natCast_nonneg _), Int.toNat_natCast,
      List.getLast?_eq_get?]
    simp [List.length_cons]

theorem trunc_eq_takeLast {α : Type} (n : Nat) (l : List α) :
    (if l.length > n then l.drop (l.length - n) else l) = takeLast n l := by
  unfold takeLast
  split
  · rfl
  · rw [Nat.sub_eq_zero_of_le (by omega), List.drop_zero]

theorem length_takeLast {α : Type} (n : Nat) (l : List α) :
    (takeLast n l).length ≤ n := by
  unfold takeLast
  simp only [List.length_drop]
  omega

theorem getLast?_drop_lt {α : Type} (l : List α) (k : Nat) (h : k < l.length) :
    (l.drop k).getLast? = l.getLast? := by
  induction l generalizing k with
  | nil => simp at h
  | cons a t ih =>
    cases k with
    | zero => simp
    | succ k =>
      have hk : k < t.length := by simpa using h
      rw [List.drop_succ_cons, ih k hk]
      cases t with
      | nil => simp at hk
      | cons b u => simp [List.getLast?_cons_cons]

theorem getLast?_takeLast {α : Type} (n : Nat) (l : List α) (hn : 0 < n) :
    (takeLast n l).getLast? = l.getLast? := by
  cases l with
  | nil => simp [takeLast]
  | cons a t =>
    apply getLast?_drop_lt
    simp [List.length_cons]
    omega

theorem takeLast_append_takeLast {α : Type} (n : Nat) (l l2 : List α) :
    takeLast n (takeLast n l ++ l2) = takeLast n (l ++ l2) := by
  unfold takeLast
  rw [← List.drop_append_of_le_length (by omega), List.drop_drop]
  congr 1
  simp only [List.length_append, List.length_drop]
  omega

/-- A `rewind` with a present entry and a succeeding write never throws. -/
theorem rewind_some_true (s : HistoryState) (e : JStr) :
    rewind s (some e) true =
      .ok (if jsTrim e = [] ∨ s.entries.getLast? = some e then resetCursor s
           else resetCursor { s with entries := takeLast s.size (s.entries ++ [e]) }) := by
  simp only [rewind]
  rw [idx?_last]
  split
  · rfl
  · simp only [Bool.not_true, Bool.and_false]
    rw [if_neg (by simp), trunc_eq_takeLast]

/-- The value of `rewind` with a present entry and a succeeding write, in closed form. -/
theorem rewindOk_some_eq (s : HistoryState) (e : JStr) :
    rewindOk s (some e) =
      if jsTrim e = [] ∨ s.entries.getLast? = some e then resetCursor s
      else resetCursor { s with entries := takeLast s.size (s.entries ++ [e]) } := by
  unfold rewindOk
  rw [rewind_some_true]

theorem rewindOk_none_eq (s : HistoryState) : rewindOk s none = resetCursor s := rfl

theorem rewindOk_size (s : HistoryState) (o : Option JStr) :
    (rewindOk s o).size = s.size := by
  cases o with
  | none => rfl
  | some e =>
    rw [rewindOk_some_eq]
    split <;> rfl

theorem rewindOk_entries (s : HistoryState) (e : JStr) :
    (rewindOk s (some e)).entries =
      if jsTrim e = [] ∨ s.entries.getLast? = some e then s.entries
      else takeLast s.size (s.entries ++ [e]) := by
  rw [rewindOk_some_eq]
  split <;> rfl

theorem drainLoop_no_execute (buf : List PendEntry) (h : ∀ x ∈ buf, x.execute = false) :
    drainLoop buf = (buf.map (fun x => Event.completedLine x.input), none, []) := by
  induction buf with
  | nil => rfl
  | cons e rest ih =>
    have he : e.execute = false := h e (List.mem_cons_self ..)
    have hr := ih (fun x hx => h x (List.mem_cons_of_mem _ hx))
    simp [drainLoop, he, hr]

theorem drainLoop_first_execute (pre : List PendEntry) (e : PendEntry) (rest : List PendEntry)
    (hpre : ∀ x ∈ pre, x.execute = false) (he : e.execute = true) :
    drainLoop (pre ++ e :: rest) =
      (pre.map (fun x => Event.completedLine x.input) ++
        [.completedLine e.input, .run e.input],
       some e.input, rest) := by
  induction pre with
  | nil => simp [drainLoop, he]
  | cons a t ih =>
    have ha : a.execute = false := hpre a (List.mem_cons_self ..)
    have ht := ih (fun x hx => hpre x (List.mem_cons_of_mem _ hx))
    simp [drainLoop, ha, ht]

theorem length_setIdx (l : List (Option JStr)) (i : Int) (v : JStr) :
    (setIdx l i v).length = l.length := by
  unfold setIdx
  split <;> simp

theorem idx?_setIdx_ne (l : List (Option JStr)) (i j : Int) (v : JStr) (hij : i ≠ j) :
    idx? (setIdx l j v) i = idx? l i := by
  unfold setIdx
  split_ifs with hj
  · unfold idx?
    split_ifs with hi
    · exact List.get?_set_ne _ _ (by omega)
    · rfl
  · rfl

theorem idx?_setIdx_self (l : List (Option JStr)) (i : Int) (v : JStr)
    (h0 : 0 ≤ i) (hlt : i < (l.length : Int)) :
    idx? (setIdx l i v) i = some (some v) := by
  unfold setIdx idx?
  rw [if_pos h0, if_pos h0]
  exact List.get?_set_eq_of_lt _ (by omega)

theorem bequiv_refl (p : HistoryState × JStr) : BEquiv p p :=
  ⟨rfl, rfl, rfl, fun _ _ => rfl, rfl⟩

theorem bequiv_trans {p q r : HistoryState × JStr} (h1 : BEquiv p q) (h2 : BEquiv q r) :
    BEquiv p r := by
  obtain ⟨e1, c1, l1, a1, i1⟩ := h1
  obtain ⟨e2, c2, l2, a2, i2⟩ := h2
  refine ⟨e1.trans e2, c1.trans c2, l1.trans l2, ?_, i1.trans i2⟩
  intro i hi
  rw [a1 i hi, a2 i (c1 ▸ hi)]

theorem upStep_entries (p : HistoryState × JStr) : (upStep p).1.entries = p.1.entries := rfl

theorem upStep_temps_length (p : HistoryState × JStr) :
    (upStep p).1.temporaries.length = p.1.temporaries.length := by
  simp [upStep, getPrevious, length_setIdx]

theorem upStep_cursor_pos (p : HistoryState × JStr) (h : 0 < p.1.cursor) :
    (upStep p).1.cursor = p.1.cursor - 1 := by
  simp only [upStep, getPrevious]
  exact if_pos h

/-- After an up-move saved the line `inp` at position `cursor`, a
down-move from position `cursor - 1` restores `inp`, whatever line `x`
the browse recall produced in between, and perturbs the scratch array
only at or below `cursor`. -/
theorem down_after_save (h : HistoryState) (inp x : JStr)
    (hc0 : 0 < h.cursor) (hcl : h.cursor ≤ (h.entries.length : Int))
    (htl : h.temporaries.length = h.entries.length + 1) :
    BEquiv (downStep ({ h with temporaries := setIdx h.temporaries h.cursor inp,
                               cursor := h.cursor - 1 }, x)) (h, inp) := by
  have hread : tempAt (setIdx (setIdx h.temporaries h.cursor inp) (h.cursor - 1) x)
      (h.cursor - 1 + 1) = some inp := by
    rw [(by omega : h.cursor - 1 + 1 = h.cursor)]
    unfold tempAt
    rw [idx?_setIdx_ne _ _ _ _ (by omega),
      idx?_setIdx_self _ _ _ (by omega) (by omega)]
    rfl
  refine ⟨rfl, ?_, ?_, ?_, ?_⟩
  · simp only [downStep, getNext]
    rw [if_pos (by omega : h.cursor - 1 < (h.entries.length : Int))]
    omega
  · simp only [downStep, getNext]
    rw [length_setIdx, length_setIdx]
  · intro i hi
    have hi' : h.cursor < i := by
      simp only [downStep, getNext] at hi
      rw [if_pos (by omega : h.cursor - 1 < (h.entries.length : Int))] at hi
      omega
    simp only [downStep, getNext]
    rw [idx?_setIdx_ne _ _ _ _ (by omega), idx?_setIdx_ne _ _ _ _ (by omega)]
  · simp only [downStep, getNext]
    rw [hread]
    rfl

/-- A down-move reads only the line buffer, the entries, the cursor and
the scratch slots above the cursor, so it maps `BEquiv`-related states to
`BEquiv`-related states. -/
theorem downStep_congr (p q : HistoryState × JStr) (h : BEquiv p q) :
    BEquiv (downStep p) (downStep q) := by
  obtain ⟨he, hc, hl, ha, hi⟩ := h
  have hread : tempAt (setIdx p.1.temporaries p.1.cursor p.2) (p.1.cursor + 1)
      = tempAt (setIdx q.1.temporaries q.1.cursor q.2) (q.1.cursor + 1) := by
    unfold tempAt
    rw [idx?_setIdx_ne _ _ _ _ (by omega), idx?_setIdx_ne _ _ _ _ (by omega), hc]
    rw [ha (q.1.cursor + 1) (by omega)]
  refine ⟨?_, ?_, ?_, ?_, ?_⟩
  · exact he
  · simp only [downStep, getNext]
    rw [he, hc]
  · simp only [downStep, getNext]
    rw [length_setIdx, length_setIdx]
    exact hl
  · intro i hi'
    have hcp : p.1.cursor < i := by
      simp only [downStep, getNext] at hi'
      split at hi' <;> omega
    simp only [downStep, getNext]
    rw [idx?_setIdx_ne _ _ _ _ (by omega), idx?_setIdx_ne _ _ _ _ (by omega)]
    exact ha i hcp
  · simp only [downStep, getNext]
    rw [hread, he, hc, hi]

theorem downStep_congr_iter (k : Nat) (p q : HistoryState × JStr) (h : BEquiv p q) :
    BEquiv ((downStep^[k]) p) ((downStep^[k]) q) := by
  induction k generalizing p q with
  | zero => simpa using h
  | succ k ih =>
    rw [Function.iterate_succ_apply, Function.iterate_succ_apply]
    exact ih _ _ (downStep_congr _ _ h)

theorem upStep_iter_facts (k : Nat) :
    ∀ p : HistoryState × JStr, (k : Int) ≤ p.1.cursor →
      ((upStep^[k]) p).1.entries = p.1.entries ∧
      ((upStep^[k]) p).1.temporaries.length = p.1.temporaries.length ∧
      ((upStep^[k]) p).1.cursor = p.1.cursor - k := by
  induction k with
  | zero =>
    intro p _
    simp
  | succ k ih =>
    intro p hk
    rw [Function.iterate_succ_apply]
    have h0 : 0 < p.1.cursor := by omega
    obtain ⟨he, hl, hc⟩ := ih (upStep p) (by rw [upStep_cursor_pos p h0]; push_cast at hk ⊢; omega)
    refine ⟨he.trans (upStep_entries p), hl.trans (upStep_temps_length p), ?_⟩
    rw [hc, upStep_cursor_pos p h0]
    push_cast
    omega

/-- Iterated: `k` up-moves followed by `k` down-moves return to a `BEquiv`-related
state: same entries, browse cursor and line buffer, scratch slots above
the cursor untouched. -/
theorem round_trip_equiv (k : Nat) :
    ∀ p : HistoryState × JStr,
      (k : Int) ≤ p.1.cursor → p.1.cursor ≤ (p.1.entries.length : Int) →
      p.1.temporaries.length = p.1.entries.length + 1 →
      BEquiv ((downStep^[k]) ((upStep^[k]) p)) p := by
  induction k with
  | zero =>
    intro p _ _ _
    simpa using bequiv_refl p
  | succ k ih =>
    intro p hk hcl htl
    have hk' : (k : Int) ≤ p.1.cursor := by push_cast at hk ⊢; omega
    obtain ⟨he, hl, hc⟩ := upStep_iter_facts k p hk'
    have hbase : BEquiv (downStep (upStep ((upStep^[k]) p))) ((upStep^[k]) p) := by
      have hup : upStep ((upStep^[k]) p) =
          ({ ((upStep^[k]) p).1 with
             temporaries := setIdx ((upStep^[k]) p).1.temporaries ((upStep^[k]) p).1.cursor
               ((upStep^[k]) p).2,
             cursor := ((upStep^[k]) p).1.cursor - 1 }, (upStep ((upStep^[k]) p)).2) := by
        have h0 : 0 < ((upStep^[k]) p).1.cursor := by
          rw [hc]
          push_cast at hk ⊢
          omega
        have h1 : (upStep ((upStep^[k]) p)).1 =
            { ((upStep^[k]) p).1 with
              temporaries := setIdx ((upStep^[k]) p).1.temporaries ((upStep^[k]) p).1.cursor
                ((upStep^[k]) p).2,
              cursor := ((upStep^[k]) p).1.cursor - 1 } := by
          simp only [upStep, getPrevious]
          rw [if_pos h0]
        calc upStep ((upStep^[k]) p)
            = ((upStep ((upStep^[k]) p)).1, (upStep ((upStep^[k]) p)).2) := rfl
          _ = _ := by rw [h1]
      rw [hup]
      -- the up-move saved the line ((upStep^[k]) p).2 at the cursor; apply the
      -- restore lemma, then the intermediate line buffer is arbitrary
      exact down_after_save ((upStep^[k]) p).1 ((upStep^[k]) p).2 _
        (by rw [hc]; push_cast at hk ⊢; omega)
        (by rw [hc, he]; push_cast at hk ⊢; omega)
        (by rw [hl, he]; exact htl)
    have hchain : BEquiv ((downStep^[k]) (downStep (upStep ((upStep^[k]) p)))) p :=
      bequiv_trans (downStep_congr_iter k _ _ hbase) (ih p hk' hcl htl)
    rw [Function.iterate_succ_apply' upStep k p,
      Function.iterate_succ_apply downStep k (upStep ((upStep^[k]) p))]
    exact hchain

/-- The Up-arrow branch of `onEscape`, in closed form. -/
theorem onEscape_up (st : CState) :
    onEscape st [0x5B, 0x41] =
      (false,
       { st with
         history := (getPrevious st.history st.input).2
         input := ((getPrevious st.history st.input).1).getD st.input
         cursor := (((getPrevious st.history st.input).1).map List.length).getD st.cursor }) := by
  rcases hp : getPrevious st.history st.input with ⟨p, h⟩
  rcases p with _ | v <;> simp [onEscape, hp]

/-- The Down-arrow branch of `onEscape`, in closed form. -/
theorem onEscape_down (st : CState) :
    onEscape st [0x5B, 0x42] =
      (false,
       { st with
         history := (getNext st.history st.input).2
         input := ((getNext st.history st.input).1).getD st.input
         cursor := (((getNext st.history st.input).1).map List.length).getD st.cursor }) := by
  rcases hn : getNext st.history st.input with ⟨p, h⟩
  rcases p with _ | v <;> simp [onEscape, hn]

/-- An Up-arrow press acts on (history, line buffer) as `upStep`. -/
theorem arrowUp_pair (st : CState) :
    ((arrowUp st).history, (arrowUp st).input) = upStep (st.history, st.input) := by
  unfold arrowUp upStep
  rw [onEscape_up]

/-- A Down-arrow press acts on (history, line buffer) as `downStep`. -/
theorem arrowDown_pair (st : CState) :
    ((arrowDown st).history, (arrowDown st).input) = downStep (st.history, st.input) := by
  unfold arrowDown downStep
  rw [onEscape_down]

theorem arrowUp_iter_pair (k : Nat) (st : CState) :
    (((arrowUp^[k]) st).history, ((arrowUp^[k]) st).input)
      = (upStep^[k]) (st.history, st.input) := by
  induction k with
  | zero => rfl
  | succ k ih =>
    rw [Function.iterate_succ_apply' arrowUp k st,
      Function.iterate_succ_apply' upStep k (st.history, st.input),
      arrowUp_pair ((arrowUp^[k]) st), ih]

theorem arrowDown_iter_pair (k : Nat) (st : CState) :
    (((arrowDown^[k]) st).history, ((arrowDown^[k]) st).input)
      = (downStep^[k]) (st.history, st.input) := by
  induction k with
  | zero => rfl
  | succ k ih =>
    rw [Function.iterate_succ_apply' arrowDown k st,
      Function.iterate_succ_apply' downStep k (st.history, st.input),
      arrowDown_pair ((arrowDown^[k]) st), ih]

/-- The function `startInputPhase` never touches the line buffer, the line-edit cursor
or the history store. -/
theorem startInputPhase_preserves (st : CState) :
    (startInputPhase st).1.input = st.input ∧ (startInputPhase st).1.cursor = st.cursor
    ∧ (startInputPhase st).1.history = st.history := by
  unfold startInputPhase
  split_ifs with h
  · exact ⟨rfl, rfl, rfl⟩
  · rcases hd : drainLoop st.inputBuffer with ⟨evs, r, rem⟩
    rcases r with _ | line <;> simp [hd]

/-- The function `pushInput` always resets the line buffer and the line-edit cursor. -/
theorem pushInput_resets (st : CState) (b : Bool) :
    (pushInput st b).1.input = [] ∧ (pushInput st b).1.cursor = 0 := by
  unfold pushInput
  by_cases hp : st.inputPhase <;> by_cases hb : b <;> simp [hp, hb]
  all_goals
    exact ⟨(startInputPhase_preserves _).1, (startInputPhase_preserves _).2.1⟩

/-- One `onChar` step preserves the line-edit cursor bound. -/
theorem onChar_cursor_le (st : CState) (c : JStr) (h : st.cursor ≤ st.input.length) :
    (onChar st c).2.1.cursor ≤ (onChar st c).2.1.input.length := by
  unfold onChar
  by_cases h0 : (decide (c.headD 0x110000 < 32) || c.headD 0x110000 == 0x7f) = true
  · rw [if_pos h0]
    by_cases h1 : c = [0x0D]
    · rw [if_pos h1]
      have hr := pushInput_resets st true
      simp [hr.1, hr.2]
    · rw [if_neg h1]
      by_cases h2 : c = [0x7F]
      · rw [if_pos h2]
        by_cases h3 : st.cursor > 0
        · rw [if_pos h3]
          simp only [List.length_append, List.length_take, List.length_drop]
          omega
        · rw [if_neg h3]
          exact h
      · rw [if_neg h2]
        by_cases h4 : c = [0x03]
        · rw [if_pos h4]
          have hr := pushInput_resets { st with input := st.input ++ [0x5E, 0x43] } false
          simp [hr.1, hr.2]
        · rw [if_neg h4]
          exact h
  · rw [if_neg h0]
    simp only [List.length_append, List.length_take]
    omega

/-- One `onEscape` step preserves the line-edit cursor bound. -/
theorem onEscape_cursor_le (st : CState) (seq : JStr) (h : st.cursor ≤ st.input.length) :
    (onEscape st seq).2.cursor ≤ (onEscape st seq).2.input.length := by
  by_cases h1 : seq = [0x5B, 0x41]
  · rw [h1, onEscape_up]
    cases hp : (getPrevious st.history st.input).1 with
    | none => simpa using h
    | some v => simp [hp]
  · by_cases h2 : seq = [0x5B, 0x42]
    · rw [h2, onEscape_down]
      cases hp : (getNext st.history st.input).1 with
      | none => simpa using h
      | some v => simp [hp]
    · unfold onEscape
      rw [if_neg h1, if_neg h2]
      split_ifs with h3 h4 h5 h6 h7 h8 <;>
        simp only [List.length_append, List.length_take, List.length_drop] <;>
        omega

/-- The cursor bound holds after any sequence of editing operations. -/
theorem applyOps_cursor_le (ops : List EditOp) (st : CState)
    (h : st.cursor ≤ st.input.length) :
    (applyOps st ops).cursor ≤ (applyOps st ops).input.length := by
  induction ops generalizing st with
  | nil => simpa [applyOps] using h
  | cons op rest ih =>
    have h1 : (applyOp st op).cursor ≤ (applyOp st op).input.length := by
      cases op with
      | char c => exact onChar_cursor_le st c h
      | escape seq => exact onEscape_cursor_le st seq h
    simpa [applyOps] using ih (applyOp st op) h1

/-! ## Claim theorems -/

/-- C1: the claim states that a failing storage write during `rewind` with
a new entry never propagates an exception and still resets the browse
cursor and scratch edits.  The code does not guard
`window.localStorage.setItem`: on a store with persistence configured
(key "h", unit 0x68) and empty history, `rewind("ls")` (units 0x6C 0x73)
with a failing write throws out of `rewind` — the entry has been appended
in memory, but the browse cursor is still 0 (not reset to 1) and the
scratch array is still the stale one-slot array. -/
theorem c1_rewind_write_failure_throws :
    rewind ⟨100, some [0x68], [], [none], 0⟩ (some [0x6C, 0x73]) false
      = .error ⟨100, some [0x68], [[0x6C, 0x73]], [none], 0⟩ := by
  rfl

/-- C2: the claim states that after inserting a multi-unit glyph,
Backspace removes the whole glyph, restoring buffer and cursor.  For the
two-unit glyph U+1F600 (UTF-16 units 0xD83D 0xDE00) typed at an empty
prompt, insertion does advance the cursor by the glyph's full length (to
2), but Backspace then removes a single code unit: the buffer is left
holding the lone high surrogate 0xD83D with cursor 1, not the empty
buffer with cursor 0. -/
theorem c2_backspace_splits_surrogate_pair :
    (onChar emptyLive [0xD83D, 0xDE00]).2.1.input = [0xD83D, 0xDE00]
  ∧ (onChar emptyLive [0xD83D, 0xDE00]).2.1.cursor = 2
  ∧ (onChar (onChar emptyLive [0xD83D, 0xDE00]).2.1 [0x7F]).2.1.input = [0xD83D]
  ∧ (onChar (onChar emptyLive [0xD83D, 0xDE00]).2.1 [0x7F]).2.1.cursor = 1 := by
  decide

/-- C9 counterexample: the claim states that a stored string that does not
parse as a JSON array of strings leaves the store empty with the failure
swallowed.  For a stored string parsing to the JSON number 42 (e.g.
`JSON.parse "42"`), the assignment `this.entries = 42` succeeds inside
the `try`, and `resetCursor` then evaluates `(42).map`, throwing a
`TypeError` out of the constructor: the failure is surfaced, and no store
(empty or otherwise) is produced. -/
theorem c9_counterexample_nonarray_parse_throws :
    construct 100 (some [0x68]) (.ok (.num 42)) = .error () := by
  rfl

/-- C9 amended: with no storage key the store starts empty; a parse
failure is swallowed and the store starts empty; a stored JSON array is
loaded verbatim (its elements are not checked to be strings); any
non-array parse result makes the constructor itself throw. -/
theorem c9_construction_amended (size : Nat) (key : JStr) (loaded : Except Unit Json) :
    construct size none loaded = .ok ⟨size, none, [], [none], 0⟩
  ∧ construct size (some key) (.error ()) = .ok ⟨size, some key, [], [none], 0⟩
  ∧ (∀ xs, construct size (some key) (.ok (.arr xs)) =
      .ok ⟨size, some key, xs, xs.map (fun _ => none) ++ [none], (xs.length : Int)⟩)
  ∧ (∀ j : Json, (∀ xs, j ≠ .arr xs) → construct size (some key) (.ok j) = .error ()) := by
  refine ⟨rfl, rfl, fun xs => rfl, fun j hj => ?_⟩
  cases j with
  | arr xs => exact absurd rfl (hj xs)
  | null => rfl
  | bool b => rfl
  | num n => rfl
  | str s => rfl
  | obj fields => rfl

/-- C9 amended, witness: a store constructed with key "h" over a failing
parse starts empty. -/
theorem c9_construction_amended_witness :
    construct 100 (some [0x68]) (.error ()) = .ok ⟨100, some [0x68], [], [none], 0⟩ :=
  (c9_construction_amended 100 [0x68] (.error ())).2.1

/-- C10: an Up- or Down-arrow press replaces the line buffer with the
value returned by `getPrevious`/`getNext` and puts the line-edit cursor
at its end when that value is defined, and leaves both the line buffer
and the line-edit cursor unchanged when it is `undefined`; the history
store is updated by the call either way. -/
theorem c10_arrow_recall (st : CState) :
    onEscape st [0x5B, 0x41] =
      (false,
       { st with
         history := (getPrevious st.history st.input).2
         input := ((getPrevious st.history st.input).1).getD st.input
         cursor := (((getPrevious st.history st.input).1).map List.length).getD st.cursor })
  ∧ onEscape st [0x5B, 0x42] =
      (false,
       { st with
         history := (getNext st.history st.input).2
         input := ((getNext st.history st.input).1).getD st.input
         cursor := (((getNext st.history st.input).1).map List.length).getD st.cursor }) := by
  constructor
  · rcases hp : getPrevious st.history st.input with ⟨p, h⟩
    rcases p with _ | v <;> simp [onEscape, hp]
  · rcases hn : getNext st.history st.input with ⟨p, h⟩
    rcases p with _ | v <;> simp [onEscape, hn]

/-- C7: Ctrl+C on a live controller (queue empty, as it always is in the
live phase) accepts the line as the current text with "^C" (units 0x5E
0x43) appended, rendering it as a completed line and re-entering the
input phase; the handler is never invoked, and the history is rewound
with no argument: entries unchanged, browse cursor back to the live
position, scratch edits cleared. -/
theorem c7_ctrl_c_discard (st : CState) (hphase : st.inputPhase = true)
    (hbuf : st.inputBuffer = []) :
    onChar st [0x03] =
      (true,
       { st with history := resetCursor st.history, input := [], cursor := 0 },
       [.completedLine (st.input ++ [0x5E, 0x43]), .livePrompt])
  ∧ (∀ l, Event.run l ∉ (onChar st [0x03]).2.2)
  ∧ (resetCursor st.history).entries = st.history.entries
  ∧ (resetCursor st.history).cursor = (st.history.entries.length : Int)
  ∧ (resetCursor st.history).temporaries =
      st.history.entries.map (fun _ => none) ++ [none] := by
  refine ⟨?_, ?_, rfl, rfl, rfl⟩
  · simp [onChar, pushInput, startInputPhase, rewindOk, rewind, drainLoop, hphase, hbuf]
  · intro l
    simp [onChar, pushInput, startInputPhase, rewindOk, rewind, drainLoop, hphase, hbuf]

/-- C7 witness: Ctrl+C on the live controller holding "foo". -/
theorem c7_ctrl_c_discard_witness :
    onChar fooLive [0x03] =
      (true,
       { fooLive with history := resetCursor fooLive.history, input := [], cursor := 0 },
       [.completedLine (fooLive.input ++ [0x5E, 0x43]), .livePrompt]) :=
  (c7_ctrl_c_discard fooLive rfl rfl).1

/-- C8: entering the input phase drains the pending-input queue in FIFO
order.  With the queue holding non-execute entries `pre`, then an execute
entry `e`, then `rest`: every entry of `pre` and then `e` are rendered as
completed lines in completion order, `e` is handed to the handler, and
draining stops with `rest` still queued and the phase still not live —
`rest` is drained only by the next `startInputPhase` (the handler's
subsequent input-phase re-entry), to which the same statements apply.
With no execute entry queued, every entry is rendered, the phase becomes
live and the editable prompt is rendered.  Completing a line while not in
the live phase appends it to the queue, so completion order is queue
order. -/
theorem c8_pending_queue_fifo (st : CState) (hphase : st.inputPhase = false)
    (pre : List PendEntry) (e : PendEntry) (rest : List PendEntry)
    (hpre : ∀ x ∈ pre, x.execute = false) (he : e.execute = true)
    (hbuf : st.inputBuffer = pre ++ e :: rest) :
    startInputPhase st =
      ({ st with inputBuffer := rest },
       pre.map (fun x => Event.completedLine x.input) ++
         [.completedLine e.input, .run e.input])
  ∧ (∀ st1 : CState, st1.inputPhase = false →
      (∀ x ∈ st1.inputBuffer, x.execute = false) →
      startInputPhase st1 =
        ({ st1 with inputBuffer := [], inputPhase := true },
         st1.inputBuffer.map (fun x => Event.completedLine x.input) ++ [.livePrompt]))
  ∧ (∀ (st2 : CState) (exec : Bool), st2.inputPhase = false →
      (pushInput st2 exec).1.inputBuffer = st2.inputBuffer ++ [⟨st2.input, exec⟩]
      ∧ (pushInput st2 exec).2 = []) := by
  refine ⟨?_, ?_, ?_⟩
  · simp [startInputPhase, hphase, hbuf, drainLoop_first_execute pre e rest hpre he]
  · intro st1 h1 h2
    simp [startInputPhase, h1, drainLoop_no_execute _ h2]
  · intro st2 exec h2
    constructor <;> simp [pushInput, h2]

/-- C8 witness: queue "a" (no execute), "b" (execute), "c" (no execute);
entering the input phase renders "a" and "b" and runs "b", leaving "c"
queued. -/
theorem c8_pending_queue_fifo_witness :
    startInputPhase queuedC =
      ({ queuedC with inputBuffer := [⟨[0x63], false⟩] },
       [.completedLine [0x61], .completedLine [0x62], .run [0x62]]) :=
  (c8_pending_queue_fifo queuedC rfl [⟨[0x61], false⟩] ⟨[0x62], true⟩ [⟨[0x63], false⟩]
    (by decide) rfl rfl).1

/-- C4: `rewind` with a candidate entry appends it exactly when it is
non-blank and different from the last stored entry (any other call leaves
the entries unchanged); accepting the same text twice in a row changes
nothing the second time; and on an initially empty default store,
accepting "ls" (units 0x6C 0x73) twice leaves exactly ["ls"]. -/
theorem c4_rewind_dedup_nonblank (s : HistoryState) (e : JStr) :
    ((jsTrim e = [] ∨ s.entries.getLast? = some e) →
        (rewindOk s (some e)).entries = s.entries)
  ∧ (jsTrim e ≠ [] → s.entries.getLast? ≠ some e →
        (rewindOk s (some e)).entries = takeLast s.size (s.entries ++ [e]))
  ∧ (rewindOk (rewindOk s (some e)) (some e)).entries = (rewindOk s (some e)).entries
  ∧ (rewindOk (rewindOk (freshHistory 100) (some [0x6C, 0x73])) (some [0x6C, 0x73])).entries
      = [[0x6C, 0x73]] := by
  refine ⟨?_, ?_, ?_, by rfl⟩
  · intro h
    rw [rewindOk_entries, if_pos h]
  · intro h1 h2
    rw [rewindOk_entries, if_neg (by tauto)]
  · by_cases hc : jsTrim e = [] ∨ s.entries.getLast? = some e
    · have h1 : (rewindOk s (some e)).entries = s.entries := by
        rw [rewindOk_entries, if_pos hc]
      rw [rewindOk_entries, h1, if_pos hc]
    · have h1 : (rewindOk s (some e)).entries = takeLast s.size (s.entries ++ [e]) := by
        rw [rewindOk_entries, if_neg hc]
      by_cases hz : 0 < s.size
      · have hlast : (rewindOk s (some e)).entries.getLast? = some e := by
          rw [h1, getLast?_takeLast _ _ hz, List.getLast?_concat]
        rw [rewindOk_entries, if_pos (Or.inr hlast)]
      · -- size = 0: the appended entry is immediately evicted, both calls
        -- leave the entries empty
        have hz0 : s.size = 0 := by omega
        have h10 : (rewindOk s (some e)).entries = [] := by
          rw [h1, hz0]
          simp [takeLast]
        by_cases hb : jsTrim e = []
        · rw [rewindOk_entries, if_pos (Or.inl hb)]
        · rw [rewindOk_entries, if_neg (by simp [h10, hb]), h10,
            rewindOk_size, hz0]
          simp [takeLast]

/-- C4 witness: the concrete dedup scenario, via the theorem. -/
theorem c4_rewind_dedup_nonblank_witness :
    (rewindOk (rewindOk (freshHistory 100) (some [0x6C, 0x73])) (some [0x6C, 0x73])).entries
      = [[0x6C, 0x73]] :=
  (c4_rewind_dedup_nonblank (freshHistory 100) [0x6C, 0x73]).2.2.2

/-- The invariant behind C3: starting from entries that are the last
`size` elements of an accepted list `A`, running any sequence of `rewind`
calls leaves the entries equal to the last `size` elements of `A`
extended by every newly accepted entry, acceptance being the spec's rule
(non-blank, not equal to the previously accepted entry). -/
theorem runRewinds_entries (size : Nat) (hs : 0 < size) (ops : List (Option JStr)) :
    ∀ (A : List JStr) (s : HistoryState), s.size = size → s.entries = takeLast size A →
      (runRewinds s ops).entries = takeLast size (A ++ acceptedFrom A.getLast? ops) := by
  induction ops with
  | nil =>
    intro A s _ hent
    simpa [runRewinds, acceptedFrom] using hent
  | cons o rest ih =>
    intro A s hsize hent
    have step : runRewinds s (o :: rest) = runRewinds (rewindOk s o) rest := by
      simp [runRewinds]
    rw [step]
    cases o with
    | none =>
      have := ih A (resetCursor s) (by simp [resetCursor, hsize]) (by simp [resetCursor, hent])
      simpa [acceptedFrom, rewindOk_none_eq] using this
    | some e =>
      have hlast : s.entries.getLast? = A.getLast? := by
        rw [hent, getLast?_takeLast _ _ hs]
      by_cases hc : jsTrim e = [] ∨ A.getLast? = some e
      · have hent1 : (rewindOk s (some e)).entries = takeLast size A := by
          rw [rewindOk_entries, if_pos (by rwa [hlast]), hent]
        have := ih A (rewindOk s (some e)) (by rw [rewindOk_size, hsize]) hent1
        rw [this]
        congr 2
        rw [acceptedFrom]
        rw [if_pos hc]
      · have hent1 : (rewindOk s (some e)).entries = takeLast size (A ++ [e]) := by
          rw [rewindOk_entries, if_neg (by rwa [hlast]), hsize, hent,
            takeLast_append_takeLast]
        have := ih (A ++ [e]) (rewindOk s (some e)) (by rw [rewindOk_size, hsize]) hent1
        rw [this, List.getLast?_concat]
        rw [acceptedFrom, if_neg hc]
        congr 1
        simp

/-- C3: starting from an empty history of positive capacity `size`, after
any sequence of `rewind` calls the entries never exceed `size` at any
intermediate point, and at the end they are exactly the most recent
`size` entries accepted (non-blank, non-consecutive-duplicate) in
acceptance order; in particular with `size = 2`, accepting "a", "b", "c"
(units 0x61, 0x62, 0x63) yields ["b", "c"]. -/
theorem c3_history_capacity (size : Nat) (hs : 0 < size) (ops : List (Option JStr)) :
    (∀ pre suf : List (Option JStr), ops = pre ++ suf →
        (runRewinds (freshHistory size) pre).entries.length ≤ size)
  ∧ (runRewinds (freshHistory size) ops).entries = takeLast size (acceptedEntries ops)
  ∧ (runRewinds (freshHistory 2)
        [some [0x61], some [0x62], some [0x63]]).entries = [[0x62], [0x63]] := by
  have main : ∀ ops1 : List (Option JStr),
      (runRewinds (freshHistory size) ops1).entries = takeLast size (acceptedEntries ops1) := by
    intro ops1
    have := runRewinds_entries size hs ops1 [] (freshHistory size) rfl (by simp [takeLast, freshHistory])
    simpa [acceptedEntries] using this
  refine ⟨?_, main ops, by rfl⟩
  intro pre _ _
  rw [main pre]
  exact length_takeLast _ _

/-- C3 witness: capacity 2 with "a", "b", "c" accepted in order. -/
theorem c3_history_capacity_witness :
    0 < 2 ∧
    (runRewinds (freshHistory 2)
        [some [0x61], some [0x62], some [0x63]]).entries = [[0x62], [0x63]] :=
  ⟨by decide, (c3_history_capacity 2 (by decide) []).2.2⟩

/-- C6: for every sequence of editing operations (printable insertion,
Backspace, delete-forward, cursor-left, cursor-right, history recall,
line push — all reachable through `onChar`/`onEscape`), the invariant
`cursor ≤ length input` holds after every prefix of the sequence; and
Backspace at cursor 0, Left-arrow at cursor 0, Right-arrow at the end of
the line and delete-forward at the end of the line are all no-ops. -/
theorem c6_cursor_invariant (st : CState) (ops : List EditOp)
    (h : st.cursor ≤ st.input.length) :
    (∀ pre suf : List EditOp, ops = pre ++ suf →
        (applyOps st pre).cursor ≤ (applyOps st pre).input.length)
  ∧ (st.cursor = 0 → onChar st [0x7F] = (false, st, []))
  ∧ (st.cursor = 0 → onEscape st [0x5B, 0x44] = (false, st))
  ∧ (st.cursor = st.input.length → onEscape st [0x5B, 0x43] = (false, st))
  ∧ (st.cursor = st.input.length → onEscape st [0x5B, 0x33, 0x7E] = (false, st)) := by
  refine ⟨fun pre _ _ => applyOps_cursor_le pre st h, ?_, ?_, ?_, ?_⟩
  · intro hc
    simp [onChar, hc]
  · intro hc
    simp [onEscape, hc]
  · intro hc
    simp [onEscape, hc]
  · intro hc
    simp [onEscape, hc]

/-- C5: on a history store whose browse cursor is at the live position
(with the scratch array of its usual shape, one slot per entry plus the
live slot), starting from a blank line, `k` Up-arrow recalls followed by
`k` Down-arrow recalls, for any `k` up to the number of entries, return
the line buffer to the original blank content: the blank line saved as a
scratch edit at the live slot on the first recall is restored on the way
back. -/
theorem c5_browse_round_trip (st : CState) (k : Nat)
    (hlive : st.history.cursor = (st.history.entries.length : Int))
    (htl : st.history.temporaries.length = st.history.entries.length + 1)
    (hk : k ≤ st.history.entries.length)
    (hblank : st.input = []) :
    ((arrowDown^[k]) ((arrowUp^[k]) st)).input = [] := by
  have hpair : (((arrowDown^[k]) ((arrowUp^[k]) st)).history,
      ((arrowDown^[k]) ((arrowUp^[k]) st)).input)
      = (downStep^[k]) ((upStep^[k]) (st.history, st.input)) := by
    rw [arrowDown_iter_pair k ((arrowUp^[k]) st), arrowUp_iter_pair k st]
  have hequiv := round_trip_equiv k (st.history, st.input)
      (by show (k : Int) ≤ st.history.cursor; rw [hlive]; omega)
      (le_of_eq hlive) htl
  have h2 : ((arrowDown^[k]) ((arrowUp^[k]) st)).input
      = ((downStep^[k]) ((upStep^[k]) (st.history, st.input))).2 :=
    congrArg Prod.snd hpair
  rw [h2, hequiv.2.2.2.2]
  exact hblank

/-- C5 witness: two recalls up and two back down on a blank prompt over
the history ["a", "b"] restore the blank line. -/
theorem c5_browse_round_trip_witness :
    ((arrowDown^[2]) ((arrowUp^[2]) browseC)).input = [] :=
  c5_browse_round_trip browseC 2 rfl rfl (by decide) rfl

/-- C6 witness: inserting "a" and moving left on the live "foo"
controller keeps the cursor within the line. -/
theorem c6_cursor_invariant_witness :
    (applyOps fooLive [EditOp.char [0x61], EditOp.escape [0x5B, 0x44]]).cursor ≤
      (applyOps fooLive [EditOp.char [0x61], EditOp.escape [0x5B, 0x44]]).input.length :=
  (c6_cursor_invariant fooLive [EditOp.char [0x61], EditOp.escape [0x5B, 0x44]]
      (by decide)).1
    [EditOp.char [0x61], EditOp.escape [0x5B, 0x44]] [] (by simp)

end XtermLocal
